import Mathlib

/-!
Verification of the client-side orchestration layer of the pet-classifier
front end (`src/App.tsx`).

The embedding models the stateful React component as explicit state passing:
the component state `images : ImageResult[]` becomes `List ImageResult`, and
each `setImages(prev => ...)` functional update becomes a pure function from
the previous store to the next.  Asynchrony (FileReader, axios, `Promise.all`)
is modelled by making the nondeterministic inputs explicit parameters:

* the random id draws of `Math.random().toString(36).substring(7)` become
  `String` parameters (one list for the placeholder ids of
  `handleImageUpload`, one for the ids drawn inside `processImage`);
* the FileReader result (the data URI) and the server's response for each
  file are carried in a `FileInput` record;
* the completion order of the per-file promises is a list of completion
  events, and `promiseAll` models how JavaScript's `Promise.all` assembles
  its result array by argument position, independent of completion order;
* the number of already-resolved pipelines parameterises `batchStores`, the
  store contents while `handleImageUpload` is awaiting `Promise.all`.
-/

/-- The `ImageResult` interface of `App.tsx`: one entry of the `images`
state.  `prediction`/`error` are `string | null`, modelled as
`Option String`. -/
structure ImageResult where
  id : String
  image : String
  prediction : Option String
  error : Option String
  isLoading : Bool
deriving Repr, DecidableEq

/-- The server interaction of one `axios.post` call in `processImage`:
either the promise resolved with a response body (`success` flag, optional
`prediction` label, optional `error` message — absent JSON fields are
`none`), or the request threw (network/transport failure), landing in the
`catch` block. -/
inductive PredictResponse where
  | data (success : Bool) (prediction : Option String) (error : Option String)
  | thrown
deriving Repr, DecidableEq

/-- One selected file together with the environment's responses to it: the
object URL `URL.createObjectURL(file)` returns, the data URI the
FileReader produces, and the server's response to the prediction request. -/
structure FileInput where
  objectUrl : String
  dataUrl : String
  response : PredictResponse
deriving Repr, DecidableEq

/-- JavaScript `v || fallback` on a possibly-absent string
(`response.data.error || 'Failed to process image'`): an absent or empty
string is falsy and selects the fallback. -/
def jsOr (v : Option String) (fallback : String) : String :=
  match v with
  | none => fallback
  | some t => if t = "" then fallback else t

/-- `processImage` (App.tsx lines 17–65): reads the file, posts the data URI
to the server and always `resolve`s (never rejects) with a fully populated
`ImageResult`.  `rid` is the id drawn inside `processImage` (line 20),
`base64Image` the FileReader result.  The three branches are the
`response.data.success` test, its `else`, and the `catch`. -/
def processImage (rid : String) (base64Image : String) (resp : PredictResponse) : ImageResult :=
  match resp with
  | .data success pred err =>
    if success then
      { id := rid, image := base64Image, prediction := pred, error := none, isLoading := false }
    else
      { id := rid, image := base64Image, prediction := none,
        error := some (jsOr err "Failed to process image"), isLoading := false }
  | .thrown =>
    { id := rid, image := base64Image, prediction := none,
      error := some "Error connecting to the model server", isLoading := false }

/-- One placeholder entry of `handleImageUpload` (lines 72–78): freshly
drawn id, object URL as display image, no prediction, no error, loading. -/
def mkPlaceholder (pid : String) (f : FileInput) : ImageResult :=
  { id := pid, image := f.objectUrl, prediction := none, error := none, isLoading := true }

/-- `files.map(file => ({id: draw(), image: URL.createObjectURL(file), ...}))`
with the id draws made explicit: zipping the draw list with the files. -/
def mkPlaceholders (ids : List String) (files : List FileInput) : List ImageResult :=
  (ids.zip files).map (fun p => mkPlaceholder p.1 p.2)

/-- `files.map(processImage)` with the per-call id draws explicit: the
results of all pipelines, in file order (the order `Promise.all` returns). -/
def processAll (rids : List String) (files : List FileInput) : List ImageResult :=
  (rids.zip files).map (fun p => processImage p.1 p.2.dataUrl p.2.response)

/-- JavaScript `Promise.all` result assembly: given the completion events of
the per-file promises as `(argument index, value)` pairs in completion
order, the result array holds each value at its argument index, regardless
of the order the events arrived in. -/
def promiseAll (events : List (Nat × ImageResult)) : List ImageResult :=
  (List.range events.length).filterMap (fun i => (events.find? (fun e => e.1 == i)).map Prod.snd)

/-- JavaScript `Array.prototype.findIndex`, index-accumulator form
(`none` models the −1 "not found" result). -/
def findIndexAux (p : α → Bool) : List α → Nat → Option Nat
  | [], _ => none
  | x :: xs, i => if p x then some i else findIndexAux p xs (i + 1)

/-- `array.findIndex(p)`: index of the first element satisfying `p`. -/
def findIndex (p : α → Bool) (l : List α) : Option Nat :=
  findIndexAux p l 0

/-- The spread patch of the reconciliation loop (lines 91–96):
`{...updatedImages[imageIndex], prediction, error, isLoading: false}` —
`id` and `image` of the stored item are kept; only `prediction`, `error`
and `isLoading` come from the pipeline result. -/
def patchItem (cur : ImageResult) (result : ImageResult) : ImageResult :=
  { cur with prediction := result.prediction, error := result.error, isLoading := false }

/-- One iteration of the `results.forEach` loop (lines 88–98): look the
placeholder id up in `prev` with `findIndex`; if found, overwrite that slot
of the accumulated `updatedImages` with the patched item; if `-1`, skip. -/
def reconcileStep (prev acc : List ImageResult) (pid : String) (result : ImageResult) :
    List ImageResult :=
  match findIndex (fun img => img.id == pid) prev with
  | none => acc
  | some i =>
    match acc[i]? with
    | none => acc
    | some cur => acc.set i (patchItem cur result)

/-- The whole second `setImages` of `handleImageUpload` (lines 86–100):
start from `updatedImages = [...prev]` and fold the `forEach` over the
`(placeholder id, result)` pairs; `findIndex` always searches `prev`. -/
def reconcile (store : List ImageResult) (pids : List String) (results : List ImageResult) :
    List ImageResult :=
  (pids.zip results).foldl (fun acc pr => reconcileStep store acc pr.1 pr.2) store

/-- `removeImage` (lines 103–105): `prev.filter(img => img.id !== id)`. -/
def removeImage (store : List ImageResult) (id : String) : List ImageResult :=
  store.filter (fun img => !(img.id == id))

/-- `handleReset` (lines 107–112): `setImages([])`. -/
def handleReset (_store : List ImageResult) : List ImageResult :=
  []

/-- The store contents during one `handleImageUpload` run (lines 67–101) as
a function of how many of the batch's pipelines have resolved so far.
Faithful to the code's temporal structure: after the early return for an
empty selection and the single placeholder append, the code performs **no**
store update until `await Promise.all` completes — so for any
`resolvedCount < files.length` the store is still the appended-placeholder
state — and then applies all patches in one `setImages`, keyed by the
placeholder ids `newImages[index].id`. -/
def batchStores (prev : List ImageResult) (ids rids : List String) (files : List FileInput)
    (resolvedCount : Nat) : List ImageResult :=
  if files.length = 0 then prev
  else if resolvedCount < files.length then prev ++ mkPlaceholders ids files
  else
    reconcile (prev ++ mkPlaceholders ids files)
      ((mkPlaceholders ids files).map (fun i => i.id)) (processAll rids files)

/-- The store operations the component performs, as events: the placeholder
append of `handleImageUpload` (with its empty-selection early return), the
batch reconciliation once that batch's `Promise.all` resolves, `removeImage`
and `handleReset`. -/
inductive StoreEvent where
  | upload (ids : List String) (files : List FileInput)
  | reconcileBatch (pids rids : List String) (files : List FileInput)
  | remove (id : String)
  | reset
deriving Repr

/-- Applying one store event.  React's functional `setImages` updates are
atomic and sequential on the single JS thread, so the component's whole
history is a sequence of these steps. -/
def stepStore (store : List ImageResult) : StoreEvent → List ImageResult
  | .upload ids files => if files.isEmpty then store else store ++ mkPlaceholders ids files
  | .reconcileBatch pids rids files => reconcile store pids (processAll rids files)
  | .remove id => removeImage store id
  | .reset => handleReset store

/-- Running a sequence of store events from an initial store. -/
def runEvents (init : List ImageResult) (evs : List StoreEvent) : List ImageResult :=
  evs.foldl stepStore init

/-- The ids of the live items, in store order. -/
def idsOf (store : List ImageResult) : List String :=
  store.map (fun i => i.id)

/-- The loading/terminal mutual-exclusion invariant of the data model: a
loading item has neither a prediction nor an error. -/
def LoadingImpliesBlank (store : List ImageResult) : Prop :=
  ∀ img ∈ store, img.isLoading = true → img.prediction = none ∧ img.error = none

/-- The id draws of a run never collide: along the event sequence, each
upload's freshly drawn ids are pairwise distinct and distinct from every id
live in the store at that moment.  `Math.random().toString(36).substring(7)`
makes this overwhelmingly likely but the code never enforces it. -/
def FreshEvents : List ImageResult → List StoreEvent → Prop
  | _, [] => True
  | store, ev :: rest =>
    (match ev with
     | .upload ids _ => (idsOf store ++ ids).Nodup
     | _ => True) ∧ FreshEvents (stepStore store ev) rest

/-! ### Helper lemmas about the list operations of the embedding -/

theorem findIndexAux_eq_none (p : α → Bool) (l : List α) (i : Nat)
    (h : ∀ x ∈ l, p x = false) : findIndexAux p l i = none := by
  induction l generalizing i with
  | nil => rfl
  | cons x xs ih =>
    simp only [findIndexAux, h x (by simp)]
    exact ih (i + 1) (fun z hz => h z (by simp [hz]))

theorem findIndexAux_append_of_none (p : α → Bool) (l1 l2 : List α) (i : Nat)
    (h : ∀ x ∈ l1, p x = false) :
    findIndexAux p (l1 ++ l2) i = findIndexAux p l2 (i + l1.length) := by
  induction l1 generalizing i with
  | nil => simp [findIndexAux]
  | cons x xs ih =>
    have hx : p x = false := h x (by simp)
    simp only [List.cons_append, findIndexAux, hx, Bool.false_eq_true, if_false, List.append_eq]
    rw [ih (i + 1) (fun z hz => h z (by simp [hz]))]
    congr 1
    simp only [List.length_cons]
    omega

theorem findIndex_first (p : α → Bool) (l1 l2 : List α) (x : α)
    (h1 : ∀ z ∈ l1, p z = false) (h2 : p x = true) :
    findIndex p (l1 ++ x :: l2) = some l1.length := by
  unfold findIndex
  rw [findIndexAux_append_of_none p l1 (x :: l2) 0 h1]
  simp [findIndexAux, h2]

theorem findIndex_eq_none (p : α → Bool) (l : List α)
    (h : ∀ x ∈ l, p x = false) : findIndex p l = none :=
  findIndexAux_eq_none p l 0 h

theorem getElem?_append_len (l1 l2 : List α) (k : Nat) :
    (l1 ++ l2)[l1.length + k]? = l2[k]? := by
  induction l1 with
  | nil => simp
  | cons x xs ih => simpa [List.cons_append, Nat.succ_add] using ih

theorem set_append_len (l1 l2 : List α) (k : Nat) (b : α) :
    (l1 ++ l2).set (l1.length + k) b = l1 ++ l2.set k b := by
  induction l1 with
  | nil => simp
  | cons x xs ih => simp [List.cons_append, Nat.succ_add, ih]

theorem map_set_of_eq (l : List α) (i : Nat) (b : α) (f : α → β)
    (h : ∀ a, l[i]? = some a → f b = f a) :
    (l.set i b).map f = l.map f := by
  induction l generalizing i with
  | nil => rfl
  | cons x xs ih =>
    cases i with
    | zero => simp [List.set, h x (by simp)]
    | succ j =>
      simp only [List.set, List.map_cons, List.cons.injEq, true_and]
      exact ih j (fun a ha => h a (by simpa using ha))

theorem mkPlaceholders_cons (x : String) (xs : List String) (y : FileInput) (ys : List FileInput) :
    mkPlaceholders (x :: xs) (y :: ys) = mkPlaceholder x y :: mkPlaceholders xs ys := rfl

theorem mkPlaceholders_nil_right (ids : List String) : mkPlaceholders ids [] = [] := by
  cases ids <;> rfl

theorem mem_mkPlaceholders (ids : List String) (files : List FileInput) (img : ImageResult)
    (h : img ∈ mkPlaceholders ids files) :
    img.isLoading = true ∧ img.prediction = none ∧ img.error = none := by
  unfold mkPlaceholders at h
  rcases List.mem_map.mp h with ⟨p, _, hp⟩
  rw [← hp]
  exact ⟨rfl, rfl, rfl⟩

theorem mkPlaceholders_getElem? (ids : List String) (files : List FileInput) (i : Nat)
    (a : String) (f : FileInput) (h1 : ids[i]? = some a) (h2 : files[i]? = some f) :
    (mkPlaceholders ids files)[i]? = some (mkPlaceholder a f) := by
  induction ids generalizing files i with
  | nil => simp at h1
  | cons x xs ih =>
    cases files with
    | nil => simp at h2
    | cons y ys =>
      cases i with
      | zero =>
        simp only [List.getElem?_cons_zero, Option.some.injEq] at h1 h2
        subst h1; subst h2
        simp [mkPlaceholders_cons]
      | succ j =>
        simp only [List.getElem?_cons_succ] at h1 h2
        simpa [mkPlaceholders_cons] using ih ys j h1 h2

theorem idsOf_mkPlaceholders (ids : List String) (files : List FileInput) :
    idsOf (mkPlaceholders ids files) = ids.take files.length := by
  unfold idsOf
  induction ids generalizing files with
  | nil => simp [mkPlaceholders]
  | cons x xs ih =>
    cases files with
    | nil => simp [mkPlaceholders_nil_right]
    | cons y ys =>
      simp only [mkPlaceholders_cons, List.map_cons, List.length_cons, List.take_succ_cons,
        List.cons.injEq]
      exact ⟨rfl, ih ys⟩

theorem reconcileStep_map_eq (f : ImageResult → β)
    (hf : ∀ cur r, f (patchItem cur r) = f cur)
    (prev acc : List ImageResult) (pid : String) (r : ImageResult) :
    (reconcileStep prev acc pid r).map f = acc.map f := by
  unfold reconcileStep
  cases hfi : findIndex (fun img => img.id == pid) prev with
  | none => rfl
  | some i =>
    show List.map f (match acc[i]? with
      | none => acc
      | some cur => acc.set i (patchItem cur r)) = List.map f acc
    cases hg : acc[i]? with
    | none => rfl
    | some cur =>
      refine map_set_of_eq acc i (patchItem cur r) f (fun a ha => ?_)
      have hca : cur = a := by rw [hg] at ha; exact Option.some.inj ha
      rw [← hca]
      exact hf cur r

theorem reconcile_map_eq (f : ImageResult → β)
    (hf : ∀ cur r, f (patchItem cur r) = f cur)
    (store : List ImageResult) (pids : List String) (results : List ImageResult) :
    (reconcile store pids results).map f = store.map f := by
  unfold reconcile
  suffices h : ∀ (prs : List (String × ImageResult)) (acc : List ImageResult),
      (prs.foldl (fun acc pr => reconcileStep store acc pr.1 pr.2) acc).map f = acc.map f by
    exact h _ store
  intro prs
  induction prs with
  | nil => intro acc; rfl
  | cons pr rest ih =>
    intro acc
    simp only [List.foldl_cons]
    rw [ih, reconcileStep_map_eq f hf]

theorem idsOf_reconcile (store : List ImageResult) (pids : List String)
    (results : List ImageResult) : idsOf (reconcile store pids results) = idsOf store := by
  unfold idsOf
  exact reconcile_map_eq (fun i => i.id) (fun _ _ => rfl) store pids results

theorem mem_of_mem_reconcileStep_loading (prev acc : List ImageResult) (pid : String)
    (r : ImageResult) (img : ImageResult)
    (h : img ∈ reconcileStep prev acc pid r) (hl : img.isLoading = true) : img ∈ acc := by
  unfold reconcileStep at h
  split at h
  · exact h
  · split at h
    · exact h
    · rcases List.mem_or_eq_of_mem_set h with hm | he
      · exact hm
      · rw [he] at hl
        simp [patchItem] at hl

theorem mem_of_mem_reconcile_loading (store : List ImageResult) (pids : List String)
    (results : List ImageResult) (img : ImageResult)
    (h : img ∈ reconcile store pids results) (hl : img.isLoading = true) : img ∈ store := by
  unfold reconcile at h
  suffices hs : ∀ (prs : List (String × ImageResult)) (acc : List ImageResult),
      img ∈ prs.foldl (fun acc pr => reconcileStep store acc pr.1 pr.2) acc → img ∈ acc by
    exact hs _ store h
  intro prs
  induction prs with
  | nil => intro acc hm; exact hm
  | cons pr rest ih =>
    intro acc hm
    simp only [List.foldl_cons] at hm
    exact mem_of_mem_reconcileStep_loading store acc pr.1 pr.2 img (ih _ hm) hl


theorem reconcileStep_notfound (store acc : List ImageResult) (pid : String) (r : ImageResult)
    (hfi : findIndex (fun img => img.id == pid) store = none) :
    reconcileStep store acc pid r = acc := by
  unfold reconcileStep
  rw [hfi]

theorem reconcileStep_found (store acc : List ImageResult) (pid : String) (r : ImageResult)
    (i : Nat) (cur : ImageResult)
    (hfi : findIndex (fun img => img.id == pid) store = some i)
    (hg : acc[i]? = some cur) :
    reconcileStep store acc pid r = acc.set i (patchItem cur r) := by
  unfold reconcileStep
  rw [hfi]
  show (match acc[i]? with
    | none => acc
    | some cur => acc.set i (patchItem cur r)) = acc.set i (patchItem cur r)
  rw [hg]

theorem reconcile_single_absent (store : List ImageResult) (pid : String) (r : ImageResult)
    (h : ∀ z ∈ store, (z.id == pid) = false) :
    reconcile store [pid] [r] = store := by
  show reconcileStep store store pid r = store
  exact reconcileStep_notfound store store pid r (findIndex_eq_none _ store h)

theorem reconcile_single_found (l1 l2 : List ImageResult) (x : ImageResult) (pid : String)
    (r : ImageResult) (h1 : ∀ z ∈ l1, (z.id == pid) = false) (h2 : x.id = pid) :
    reconcile (l1 ++ x :: l2) [pid] [r] = l1 ++ patchItem x r :: l2 := by
  have hfi : findIndex (fun img => img.id == pid) (l1 ++ x :: l2) = some l1.length :=
    findIndex_first _ l1 l2 x h1 (by simp [h2])
  have hget : (l1 ++ x :: l2)[l1.length]? = some x := by
    simpa using getElem?_append_len l1 (x :: l2) 0
  show reconcileStep (l1 ++ x :: l2) (l1 ++ x :: l2) pid r = l1 ++ patchItem x r :: l2
  rw [reconcileStep_found _ _ pid r l1.length x hfi hget]
  simp

theorem reconcile_pair (prev : List ImageResult) (x y : ImageResult) (pid1 pid2 : String)
    (r1 r2 : ImageResult)
    (hf1 : ∀ z ∈ prev, (z.id == pid1) = false) (hf2 : ∀ z ∈ prev, (z.id == pid2) = false)
    (hxid : x.id = pid1) (hyid : y.id = pid2) (hne : pid1 ≠ pid2) :
    reconcile (prev ++ [x, y]) [pid1, pid2] [r1, r2] =
      prev ++ [patchItem x r1, patchItem y r2] := by
  have hfi1 : findIndex (fun img => img.id == pid1) (prev ++ [x, y]) = some prev.length := by
    have := findIndex_first (fun img : ImageResult => img.id == pid1) prev [y] x hf1
      (by simp [hxid])
    simpa using this
  have hfi2 : findIndex (fun img => img.id == pid2) (prev ++ [x, y]) = some (prev.length + 1) := by
    have hall : ∀ z ∈ prev ++ [x], (z.id == pid2) = false := by
      intro z hz
      rcases List.mem_append.mp hz with hz | hz
      · exact hf2 z hz
      · simp only [List.mem_singleton] at hz
        subst hz
        simp [hxid]
        exact hne
    have := findIndex_first (fun img : ImageResult => img.id == pid2) (prev ++ [x]) [] y hall
      (by simp [hyid])
    simpa [List.append_assoc] using this
  have hget1 : (prev ++ [x, y])[prev.length]? = some x := by
    simpa using getElem?_append_len prev [x, y] 0
  show (reconcileStep (prev ++ [x, y]) (reconcileStep (prev ++ [x, y]) (prev ++ [x, y]) pid1 r1)
      pid2 r2) = prev ++ [patchItem x r1, patchItem y r2]
  rw [reconcileStep_found _ _ pid1 r1 prev.length x hfi1 hget1]
  have hset1 : (prev ++ [x, y]).set prev.length (patchItem x r1)
      = prev ++ [patchItem x r1, y] := by
    simp
  rw [hset1]
  have hget2 : (prev ++ [patchItem x r1, y])[prev.length + 1]? = some y := by
    simpa using getElem?_append_len prev [patchItem x r1, y] 1
  rw [reconcileStep_found _ _ pid2 r2 (prev.length + 1) y hfi2 hget2]
  simp

theorem stepStore_loadingBlank (store : List ImageResult) (ev : StoreEvent)
    (h : LoadingImpliesBlank store) : LoadingImpliesBlank (stepStore store ev) := by
  cases ev with
  | upload ids files =>
    by_cases he : files.isEmpty
    · simpa [stepStore, he] using h
    · intro img hm hl
      have hm2 : img ∈ (if files.isEmpty then store else store ++ mkPlaceholders ids files) := hm
      rw [if_neg he] at hm2
      rcases List.mem_append.mp hm2 with hm3 | hm3
      · exact h img hm3 hl
      · rcases mem_mkPlaceholders ids files img hm3 with ⟨_, hp, herr⟩
        exact ⟨hp, herr⟩
  | reconcileBatch pids rids files =>
    intro img hm hl
    exact h img (mem_of_mem_reconcile_loading _ _ _ _ hm hl) hl
  | remove id =>
    intro img hm hl
    simp only [stepStore, removeImage] at hm
    exact h img (List.mem_of_mem_filter hm) hl
  | reset =>
    intro img hm
    simp [stepStore, handleReset] at hm

theorem runEvents_loadingBlank (evs : List StoreEvent) :
    LoadingImpliesBlank (runEvents [] evs) := by
  have key : ∀ evs (init : List ImageResult), LoadingImpliesBlank init →
      LoadingImpliesBlank (runEvents init evs) := by
    intro evs
    induction evs with
    | nil => intro init h; exact h
    | cons ev rest ih => intro init h; exact ih _ (stepStore_loadingBlank init ev h)
  exact key evs [] (by intro img hm _; simp at hm)

theorem stepStore_nodup (store : List ImageResult) (ev : StoreEvent)
    (h : (idsOf store).Nodup)
    (hf : match ev with | .upload ids _ => (idsOf store ++ ids).Nodup | _ => True) :
    (idsOf (stepStore store ev)).Nodup := by
  cases ev with
  | upload ids files =>
    by_cases he : files.isEmpty
    · simpa [stepStore, he] using h
    · have h2 : idsOf (stepStore store (.upload ids files))
          = idsOf store ++ ids.take files.length := by
        show idsOf (if files.isEmpty then store else store ++ mkPlaceholders ids files)
            = idsOf store ++ ids.take files.length
        rw [if_neg he]
        unfold idsOf
        rw [List.map_append]
        have h3 := idsOf_mkPlaceholders ids files
        unfold idsOf at h3
        rw [h3]
      rw [h2]
      exact List.Nodup.sublist ((List.take_sublist _ _).append_left _) hf
  | reconcileBatch pids rids files =>
    have h2 : idsOf (stepStore store (.reconcileBatch pids rids files)) = idsOf store :=
      idsOf_reconcile store pids (processAll rids files)
    rw [h2]
    exact h
  | remove id =>
    refine List.Nodup.sublist ?_ h
    exact List.Sublist.map _ (List.filter_sublist _)
  | reset =>
    simp [stepStore, handleReset, idsOf]

theorem runEvents_nodup (evs : List StoreEvent) (h : FreshEvents [] evs) :
    (idsOf (runEvents [] evs)).Nodup := by
  have key : ∀ evs (store : List ImageResult), (idsOf store).Nodup → FreshEvents store evs →
      (idsOf (runEvents store evs)).Nodup := by
    intro evs
    induction evs with
    | nil => intro store hnd _; exact hnd
    | cons ev rest ih =>
      intro store hnd hfe
      exact ih _ (stepStore_nodup store ev hnd hfe.1) hfe.2
  exact key evs [] (by simp [idsOf]) h

/-! ### Claim theorems -/

/-- C1 counterexample: the claim says an already-resolved item's transition
out of `isLoading` is never delayed by a slow sibling.  In the code,
`handleImageUpload` awaits `Promise.all` and only then issues its single
reconciling `setImages`, so with a batch of two files and one pipeline
already resolved (`resolvedCount = 1 < 2`) the store still shows **both**
items as loading — the resolved item has not transitioned. -/
theorem C1_counterexample :
    batchStores [] ["a", "b"] ["r", "s"]
        [⟨"blob:1", "data:1", .data true (some "cat") none⟩,
         ⟨"blob:2", "data:2", .data true (some "dog") none⟩] 1 =
      [⟨"a", "blob:1", none, none, true⟩, ⟨"b", "blob:2", none, none, true⟩] := by
  decide

/-- C1 (amended): outcomes are reconciled in one batch update only after
every pipeline of the batch resolves: while any pipeline is pending
(`k < files.length`) the store is exactly the appended-placeholder state,
all of whose batch items are loading, and once all pipelines have resolved
the store is the single batch reconciliation of all results. -/
theorem C1_amended (prev : List ImageResult) (ids rids : List String)
    (files : List FileInput) (k : Nat) (hk : k < files.length) :
    batchStores prev ids rids files k = prev ++ mkPlaceholders ids files ∧
    (∀ img ∈ mkPlaceholders ids files, img.isLoading = true) ∧
    batchStores prev ids rids files files.length =
      reconcile (prev ++ mkPlaceholders ids files)
        ((mkPlaceholders ids files).map (fun i => i.id)) (processAll rids files) := by
  have hne : ¬files.length = 0 := by omega
  refine ⟨?_, ?_, ?_⟩
  · unfold batchStores
    rw [if_neg hne, if_pos hk]
  · intro img hm
    exact (mem_mkPlaceholders ids files img hm).1
  · unfold batchStores
    rw [if_neg hne, if_neg (Nat.lt_irrefl files.length)]

/-- Witness for `C1_amended` at a concrete one-file batch. -/
theorem C1_amended_witness :
    batchStores [] ["a"] ["r"] [⟨"b", "d", PredictResponse.thrown⟩] 0 =
      [⟨"a", "b", none, none, true⟩] ∧
    batchStores [] ["a"] ["r"] [⟨"b", "d", PredictResponse.thrown⟩] 1 =
      reconcile [⟨"a", "b", none, none, true⟩] ["a"]
        (processAll ["r"] [⟨"b", "d", PredictResponse.thrown⟩]) := by
  constructor
  · exact (C1_amended [] ["a"] ["r"] [⟨"b", "d", PredictResponse.thrown⟩] 0 (by decide)).1
  · exact (C1_amended [] ["a"] ["r"] [⟨"b", "d", PredictResponse.thrown⟩] 0 (by decide)).2.2

/-- C2 counterexample: a service response with `success` truthy but neither
a label nor an error message leaves the item with `prediction = null` AND
`error = null` (and `isLoading = false`): neither field is set, and the
item is NOT marked failed with a fallback message, contrary to the claim. -/
theorem C2_counterexample :
    processImage "r" "data:1" (.data true none none) =
      ⟨"r", "data:1", none, none, false⟩ := by
  decide

/-- C2 (amended): after a resolved attempt, exactly one of
`prediction`/`error` is non-null in the successful-with-label, the
service-error and the transport-error cases (with the fallback message when
the service supplies none) — except the boundary case of a success flag
with no label, which leaves BOTH null and is treated as success, not
failure. -/
theorem C2_amended : ∀ (rid d lbl : String) (p e : Option String),
    processImage rid d (.data true (some lbl) e) = ⟨rid, d, some lbl, none, false⟩ ∧
    processImage rid d (.data false p e) =
      ⟨rid, d, none, some (jsOr e "Failed to process image"), false⟩ ∧
    processImage rid d PredictResponse.thrown =
      ⟨rid, d, none, some "Error connecting to the model server", false⟩ ∧
    processImage rid d (.data true none e) = ⟨rid, d, none, none, false⟩ := by
  intro rid d lbl p e
  exact ⟨rfl, rfl, rfl, rfl⟩

/-- C3: resolution-order independence.  With a batch of two files whose
pipelines complete in swapped order (the second file's completion event
arrives first), `Promise.all` still hands the results over in argument
order, and the batch reconciliation applies file 1's outcome to the item
with file 1's placeholder id and file 2's outcome to file 2's — provided
the placeholder ids are distinct and fresh for the pre-existing store. -/
theorem C3_order_independence (prev : List ImageResult) (pid1 pid2 rid1 rid2 : String)
    (f1 f2 : FileInput)
    (hfr1 : ∀ z ∈ prev, z.id ≠ pid1) (hfr2 : ∀ z ∈ prev, z.id ≠ pid2) (hne : pid1 ≠ pid2) :
    reconcile (prev ++ [mkPlaceholder pid1 f1, mkPlaceholder pid2 f2]) [pid1, pid2]
        (promiseAll [(1, processImage rid2 f2.dataUrl f2.response),
                     (0, processImage rid1 f1.dataUrl f1.response)]) =
      prev ++ [patchItem (mkPlaceholder pid1 f1) (processImage rid1 f1.dataUrl f1.response),
               patchItem (mkPlaceholder pid2 f2) (processImage rid2 f2.dataUrl f2.response)] := by
  have hpa : promiseAll [(1, processImage rid2 f2.dataUrl f2.response),
      (0, processImage rid1 f1.dataUrl f1.response)] =
      [processImage rid1 f1.dataUrl f1.response,
       processImage rid2 f2.dataUrl f2.response] := rfl
  rw [hpa]
  exact reconcile_pair prev (mkPlaceholder pid1 f1) (mkPlaceholder pid2 f2) pid1 pid2 _ _
    (fun z hz => by simpa using hfr1 z hz) (fun z hz => by simpa using hfr2 z hz)
    rfl rfl hne

/-- Witness for `C3_order_independence`: two concrete files, completion
events swapped; file A still gets "cat", file B still gets the error. -/
theorem C3_order_independence_witness :
    reconcile [⟨"a", "blob:1", none, none, true⟩, ⟨"b", "blob:2", none, none, true⟩]
        ["a", "b"]
        (promiseAll [(1, processImage "s" "data:2" (.data false none (some "blurry image"))),
                     (0, processImage "r" "data:1" (.data true (some "cat") none))]) =
      [⟨"a", "blob:1", some "cat", none, false⟩,
       ⟨"b", "blob:2", none, some "blurry image", false⟩] :=
  C3_order_independence [] "a" "b" "r" "s"
    ⟨"blob:1", "data:1", .data true (some "cat") none⟩
    ⟨"blob:2", "data:2", .data false none (some "blurry image")⟩
    (by simp) (by simp) (by decide)

/-- C4: reconciling a result whose id is absent from the store (e.g. the
item was removed mid-flight) leaves the store completely unchanged — it is
the `imageIndex !== -1` guard skipping the patch; in particular a
reconciliation arriving after `removeImage` of the same id is a no-op.
(`reconcile` is a total function, so no input makes it throw.) -/
theorem C4_absent_id_noop (store : List ImageResult) (pid : String) (r : ImageResult)
    (h : ∀ img ∈ store, img.id ≠ pid) :
    reconcile store [pid] [r] = store ∧
    reconcile (removeImage store pid) [pid] [r] = removeImage store pid := by
  constructor
  · exact reconcile_single_absent store pid r (fun z hz => by simpa using h z hz)
  · refine reconcile_single_absent _ pid r ?_
    intro z hz
    have hz2 : z ∈ store.filter (fun img => !(img.id == pid)) := hz
    have h2 := List.of_mem_filter hz2
    simpa using h2

/-- Witness for `C4_absent_id_noop`: a store whose only item has id "b" is
untouched by a reconciliation for the absent id "a". -/
theorem C4_absent_id_noop_witness :
    reconcile [⟨"b", "i", none, none, true⟩] ["a"] [⟨"r", "d", some "cat", none, false⟩] =
      [⟨"b", "i", none, none, true⟩] ∧
    reconcile (removeImage [⟨"b", "i", none, none, true⟩] "a") ["a"]
        [⟨"r", "d", some "cat", none, false⟩] =
      removeImage [⟨"b", "i", none, none, true⟩] "a" :=
  C4_absent_id_noop [⟨"b", "i", none, none, true⟩] "a" ⟨"r", "d", some "cat", none, false⟩
    (by decide)

/-- C5 counterexample: ids come from `Math.random().toString(36).substring(7)`
with no uniqueness enforcement, so the draws can collide; with the draw
"a" occurring twice in one batch, the store holds two concurrently live
items sharing the id "a", refuting the claimed uniqueness invariant. -/
theorem C5_counterexample :
    stepStore [] (.upload ["a", "a"]
        [⟨"blob:1", "data:1", .data true (some "cat") none⟩,
         ⟨"blob:2", "data:2", .data true (some "dog") none⟩]) =
      [⟨"a", "blob:1", none, none, true⟩, ⟨"a", "blob:2", none, none, true⟩] ∧
    ¬ (idsOf [⟨"a", "blob:1", none, none, true⟩,
        ⟨"a", "blob:2", none, none, true⟩]).Nodup := by
  constructor
  · decide
  · decide

/-- C5 (amended): uniqueness of live ids is conditional on the random
draws: if along the whole run every upload's draws are pairwise distinct
and distinct from the ids live at that moment (`FreshEvents`), then every
reachable store state has pairwise-distinct live ids — no operation other
than an upload ever introduces an id, and reconciliation and removal
preserve or shrink the id list. -/
theorem C5_ids_nodup (evs : List StoreEvent) (h : FreshEvents [] evs) :
    (idsOf (runEvents [] evs)).Nodup :=
  runEvents_nodup evs h

/-- Witness for `C5_ids_nodup`: a two-file upload with distinct draws. -/
theorem C5_ids_nodup_witness :
    (idsOf (runEvents [] [StoreEvent.upload ["a", "b"]
        [⟨"blob:1", "data:1", .data true (some "cat") none⟩,
         ⟨"blob:2", "data:2", .data true (some "dog") none⟩]])).Nodup :=
  C5_ids_nodup _ ⟨by decide, trivial⟩

/-- C6 counterexample: the claim says every item's `isLoading` goes from
true to false exactly once.  With a colliding id draw ("a" again, reachable
since ids are random), the second batch's reconciliation patches the FIRST
store occurrence of "a" — the already-terminal item from the first batch,
mutating it a second time (overwriting "cat" with "dog") — while the second
batch's own placeholder stays `isLoading = true` forever even though its
pipeline resolved and its reconciliation ran: it transitions zero times. -/
theorem C6_counterexample :
    runEvents [] [
      StoreEvent.upload ["a"] [⟨"blob:1", "data:1", .data true (some "cat") none⟩],
      StoreEvent.reconcileBatch ["a"] ["r"] [⟨"blob:1", "data:1", .data true (some "cat") none⟩],
      StoreEvent.upload ["a"] [⟨"blob:2", "data:2", .data true (some "dog") none⟩],
      StoreEvent.reconcileBatch ["a"] ["s"] [⟨"blob:2", "data:2", .data true (some "dog") none⟩]] =
      [⟨"a", "blob:1", some "dog", none, false⟩, ⟨"a", "blob:2", none, none, true⟩] := by
  decide

/-- C6 (amended): (1) every placeholder is created with `isLoading = true`
and both result fields null; (2) in every reachable store state a loading
item has `prediction = null` and `error = null` (loading and terminal
result are mutually exclusive); (3) no store operation ever turns a live
item's `isLoading` back to true — a loading item after any step was already
loading before it, unless it is a freshly created placeholder of an upload;
(4) when the reconciled id's first store occurrence is the item itself
(guaranteed when ids are unique), reconciliation patches exactly that item,
setting `isLoading = false` — so under fresh ids each item transitions at
most once, at its own batch's reconciliation.  Without freshness the
"exactly once" part fails (see the counterexample). -/
theorem C6_loading_lifecycle :
    (∀ (pid : String) (f : FileInput),
      mkPlaceholder pid f = ⟨pid, f.objectUrl, none, none, true⟩) ∧
    (∀ evs : List StoreEvent, LoadingImpliesBlank (runEvents [] evs)) ∧
    (∀ (store : List ImageResult) (ev : StoreEvent) (img : ImageResult),
      img ∈ stepStore store ev → img.isLoading = true →
      img ∈ store ∨ ∃ ids files, ev = StoreEvent.upload ids files ∧
        img ∈ mkPlaceholders ids files) ∧
    (∀ (l1 l2 : List ImageResult) (x : ImageResult) (pid : String) (r : ImageResult),
      (∀ z ∈ l1, z.id ≠ pid) → x.id = pid →
      reconcile (l1 ++ x :: l2) [pid] [r] = l1 ++ patchItem x r :: l2 ∧
      (patchItem x r).isLoading = false) := by
  refine ⟨fun _ _ => rfl, runEvents_loadingBlank, ?_, ?_⟩
  · intro store ev img hm hl
    cases ev with
    | upload ids files =>
      have hm2 : img ∈ (if files.isEmpty then store
          else store ++ mkPlaceholders ids files) := hm
      by_cases he : files.isEmpty
      · rw [if_pos he] at hm2
        exact Or.inl hm2
      · rw [if_neg he] at hm2
        rcases List.mem_append.mp hm2 with hm3 | hm3
        · exact Or.inl hm3
        · exact Or.inr ⟨ids, files, rfl, hm3⟩
    | reconcileBatch pids rids files =>
      exact Or.inl (mem_of_mem_reconcile_loading store pids (processAll rids files) img hm hl)
    | remove id =>
      exact Or.inl (List.mem_of_mem_filter hm)
    | reset =>
      simp [stepStore, handleReset] at hm
  · intro l1 l2 x pid r h1 h2
    exact ⟨reconcile_single_found l1 l2 x pid r (fun z hz => by simpa using h1 z hz) h2, rfl⟩

/-- Witness for `C6_loading_lifecycle`: its reconciliation part applied to a
concrete singleton store. -/
theorem C6_loading_lifecycle_witness :
    reconcile [⟨"a", "blob:1", none, none, true⟩] ["a"]
        [⟨"r", "data:1", some "cat", none, false⟩] =
      [⟨"a", "blob:1", some "cat", none, false⟩] ∧
    (patchItem ⟨"a", "blob:1", none, none, true⟩
      ⟨"r", "data:1", some "cat", none, false⟩).isLoading = false :=
  C6_loading_lifecycle.2.2.2 [] [] ⟨"a", "blob:1", none, none, true⟩ "a"
    ⟨"r", "data:1", some "cat", none, false⟩ (by simp) rfl

/-- C7: failure taxonomy of `processImage`.  A transport failure (the axios
promise rejects) always yields the fixed connectivity message and no
prediction; a non-success service response yields the service's own message
passed through `response.data.error || 'Failed to process image'` — i.e.
the service message when it is present and non-empty, the fixed fallback
otherwise — and no prediction; the two fixed messages are distinct strings;
and `processImage` is a total function (every case `resolve`s: no failure
propagates as an uncaught exception). -/
theorem C7_failure_taxonomy : ∀ (rid d : String) (p e : Option String),
    processImage rid d PredictResponse.thrown =
      ⟨rid, d, none, some "Error connecting to the model server", false⟩ ∧
    processImage rid d (.data false p e) =
      ⟨rid, d, none, some (jsOr e "Failed to process image"), false⟩ ∧
    jsOr none "Failed to process image" = "Failed to process image" ∧
    jsOr (some "") "Failed to process image" = "Failed to process image" ∧
    (∀ m : String, jsOr (some m) "Failed to process image" =
      if m = "" then "Failed to process image" else m) ∧
    "Error connecting to the model server" ≠ "Failed to process image" := by
  intro rid d p e
  exact ⟨rfl, rfl, rfl, by decide, fun m => rfl, by decide⟩

/-- C8: submitting N files appends exactly N loading placeholders in one
store update.  N = 0 leaves the store unchanged (the early return); for any
selection, the new length is the old length plus the file count, the
pre-existing items are preserved as a prefix in order, and the i-th
appended slot is exactly the loading placeholder of the i-th file with the
i-th drawn id — so the batch's relative order is the files' order. -/
theorem C8_batch_append (prev : List ImageResult) (ids : List String) (files : List FileInput)
    (hlen : ids.length = files.length) :
    stepStore prev (.upload ids []) = prev ∧
    (stepStore prev (.upload ids files)).length = prev.length + files.length ∧
    (stepStore prev (.upload ids files)).take prev.length = prev ∧
    (∀ (i : Nat) (a : String) (f : FileInput), ids[i]? = some a → files[i]? = some f →
      (stepStore prev (.upload ids files))[prev.length + i]? =
        some ⟨a, f.objectUrl, none, none, true⟩) := by
  have hup : stepStore prev (.upload ids files) = prev ++ mkPlaceholders ids files := by
    show (if files.isEmpty then prev else prev ++ mkPlaceholders ids files) = _
    by_cases he : files.isEmpty
    · rw [if_pos he]
      have hf0 : files = [] := by simpa using he
      subst hf0
      rw [mkPlaceholders_nil_right]
      simp
    · rw [if_neg he]
  have hmk : (mkPlaceholders ids files).length = files.length := by
    unfold mkPlaceholders
    rw [List.length_map, List.length_zip, hlen, Nat.min_self]
  refine ⟨rfl, ?_, ?_, ?_⟩
  · rw [hup, List.length_append, hmk]
  · rw [hup, List.take_left]
  · intro i a f h1 h2
    rw [hup, getElem?_append_len]
    exact mkPlaceholders_getElem? ids files i a f h1 h2

/-- Witness for `C8_batch_append`: one file appended to an empty store. -/
theorem C8_batch_append_witness :
    (stepStore [] (.upload ["a"] [⟨"blob:1", "data:1", PredictResponse.thrown⟩])).length =
      0 + 1 ∧
    (stepStore [] (.upload ["a"] [⟨"blob:1", "data:1", PredictResponse.thrown⟩]))[0 + 0]? =
      some ⟨"a", "blob:1", none, none, true⟩ :=
  ⟨(C8_batch_append [] ["a"] [⟨"blob:1", "data:1", PredictResponse.thrown⟩] rfl).2.1,
   (C8_batch_append [] ["a"] [⟨"blob:1", "data:1", PredictResponse.thrown⟩] rfl).2.2.2
     0 "a" ⟨"blob:1", "data:1", PredictResponse.thrown⟩ rfl rfl⟩

/-- C9 counterexample: the claim says the item's `image` is later replaced
by the data URI once encoding is available.  In the code the reconciliation
patch spreads only `prediction`, `error`, `isLoading` — `result.image` (the
data URI) is never written back: after the batch fully resolves, the stored
image is still the object URL "blob:1", while the pipeline's result carries
the data URI "data:1". -/
theorem C9_counterexample :
    (batchStores [] ["a"] ["r"] [⟨"blob:1", "data:1", .data true (some "cat") none⟩] 1).map
        (fun i => i.image) = ["blob:1"] ∧
    (processImage "r" "data:1" (.data true (some "cat") none)).image = "data:1" ∧
    "blob:1" ≠ "data:1" := by
  exact ⟨by decide, rfl, by decide⟩

/-- C9 (amended): the `image` field holds the transient object URL for the
item's entire store lifetime.  The placeholder stores the object URL, the
pipeline result does carry the durable data URI, but reconciliation
preserves every stored item's `image` unchanged — the encoded form is never
written into the store. -/
theorem C9_image_never_replaced :
    (∀ (pid : String) (f : FileInput), (mkPlaceholder pid f).image = f.objectUrl) ∧
    (∀ (rid d : String) (resp : PredictResponse), (processImage rid d resp).image = d) ∧
    (∀ (store : List ImageResult) (pids : List String) (results : List ImageResult),
      (reconcile store pids results).map (fun i => i.image) =
        store.map (fun i => i.image)) := by
  refine ⟨fun _ _ => rfl, ?_, ?_⟩
  · intro rid d resp
    cases resp with
    | data s pr er => cases s <;> rfl
    | thrown => rfl
  · intro store pids results
    exact reconcile_map_eq (fun i => i.image) (fun _ _ => rfl) store pids results

/-- C10: with duplicate live ids the two keyed operations are asymmetric.
Reconciliation uses `findIndex`, so it patches only the FIRST occurrence of
the id — any later duplicates (in `l2`) are untouched — while `removeImage`
uses `filter`, so no item with the removed id survives, however many
occurrences there were. -/
theorem C10_duplicate_asymmetry (l1 l2 : List ImageResult) (x : ImageResult) (pid : String)
    (r : ImageResult) (h1 : ∀ z ∈ l1, z.id ≠ pid) (h2 : x.id = pid) :
    reconcile (l1 ++ x :: l2) [pid] [r] = l1 ++ patchItem x r :: l2 ∧
    (∀ store : List ImageResult, ∀ img ∈ removeImage store pid, img.id ≠ pid) := by
  constructor
  · exact reconcile_single_found l1 l2 x pid r (fun z hz => by simpa using h1 z hz) h2
  · intro store img hm
    have hm2 : img ∈ store.filter (fun i => !(i.id == pid)) := hm
    have h3 := List.of_mem_filter hm2
    simpa using h3

/-- Witness for `C10_duplicate_asymmetry`: a store with two items of id "a";
reconciliation patches only the first, and removal by "a" empties it. -/
theorem C10_duplicate_asymmetry_witness :
    reconcile [⟨"a", "i1", none, none, true⟩, ⟨"a", "i2", none, none, true⟩] ["a"]
        [⟨"r", "d", some "cat", none, false⟩] =
      [⟨"a", "i1", some "cat", none, false⟩, ⟨"a", "i2", none, none, true⟩] ∧
    (⟨"b", "i3", none, none, false⟩ : ImageResult).id ≠ "a" := by
  constructor
  · exact (C10_duplicate_asymmetry [] [⟨"a", "i2", none, none, true⟩]
      ⟨"a", "i1", none, none, true⟩ "a" ⟨"r", "d", some "cat", none, false⟩
      (by simp) rfl).1
  · exact (C10_duplicate_asymmetry [] [⟨"a", "i2", none, none, true⟩]
      ⟨"a", "i1", none, none, true⟩ "a" ⟨"r", "d", some "cat", none, false⟩
      (by simp) rfl).2 [⟨"b", "i3", none, none, false⟩]
      ⟨"b", "i3", none, none, false⟩ (by decide)
